import Mathlib

/-!
# Verification of the unitool test-report parser and renderer

This development gives a shallow embedding of the test-report module of the
`unitool` repository (`src/testing.rs` plus its display helper
`src/display.rs`) and proves the specified properties about it.

The data model (`TestSummary`, `TestSuite`, `TestCase`, `TestDetail`,
`FailureInfo`, `FailureDetail`, `TestResult`) and the rendering functions
are translated directly from the Rust source.  Terminal styling is produced
by the external `colored` crate; it is embedded here as `ColoredString`
with the crate's truecolor ANSI escape encoding.  The XML deserialization
is performed by the external `quick_xml`/serde crates, so the parser is
modelled from the specification (see `parseReport` below).
-/

/-! ## String helpers

Rust string operations used by the source, modelled at the character-list
level so that they have clean equations. -/

/-- Model of `Vec::<String>::join(sep)` (also `String.intercalate`):
the pieces joined with a single separator between adjacent pieces. -/
def joinWith (sep : String) : List String → String
  | [] => ""
  | [x] => x
  | x :: y :: rest => x ++ sep ++ joinWith sep (y :: rest)

/-- Split a character list at every occurrence of `c`.
Always returns at least one (possibly empty) piece. -/
def splitCharList (c : Char) : List Char → List (List Char)
  | [] => [[]]
  | x :: xs =>
    if x = c then [] :: splitCharList c xs
    else
      match splitCharList c xs with
      | [] => [[x]]
      | l :: ls => (x :: l) :: ls

/-- The lines of a string: split at every newline character.
This is the specification-side notion of "the lines of the rendered
output" (a byte stream split at each `\n`). -/
def splitNl (s : String) : List String :=
  (splitCharList '\n' s.data).map String.mk

/-- Strip one trailing carriage return, as Rust's `str::lines` does to
each produced line. -/
def stripTrailingCr (l : String) : String :=
  if l.data.getLast? = some '\r' then String.mk l.data.dropLast else l

/-- Model of Rust `str::lines()`: split at `'\n'`, do not produce a final
empty line for a trailing newline (split-terminator semantics, so the
empty string yields no lines), and strip one trailing `'\r'` from each
line. -/
def rustLines (s : String) : List String :=
  let parts := splitNl s
  let parts := if parts.getLast? = some "" then parts.dropLast else parts
  parts.map stripTrailingCr

/-- The decimal digit character for `d` (meaningful for `d < 10`). -/
def digitChar (d : Nat) : Char := Char.ofNat (48 + d)

/-- Digits of a positive number, most significant first (`[]` for 0).
The first argument is recursion fuel; any fuel at least `n` gives the
digits of `n`. -/
def natReprAux : Nat → Nat → List Char
  | _, 0 => []
  | 0, _ + 1 => []
  | fuel + 1, n + 1 =>
    natReprAux fuel ((n + 1) / 10) ++ [digitChar ((n + 1) % 10)]

/-- Decimal rendering of a natural number, as Rust's `usize` `Display`. -/
def natRepr (n : Nat) : String :=
  if n = 0 then "0" else String.mk (natReprAux n n)

/-- Replace every occurrence of `pat` in the input by `repl`, scanning
left to right (Rust `str::replace` for a non-empty pattern).  The fuel
argument bounds the number of scanning steps; any fuel at least the
input length gives the full replacement. -/
def replaceListAux (pat repl : List Char) : Nat → List Char → List Char
  | _, [] => []
  | 0, x :: xs => x :: xs
  | fuel + 1, x :: xs =>
    if pat ≠ [] ∧ pat.isPrefixOf (x :: xs) then
      repl ++ replaceListAux pat repl fuel (List.drop pat.length (x :: xs))
    else
      x :: replaceListAux pat repl fuel xs

/-- Replace every occurrence of `pat` in the input by `repl`. -/
def replaceList (pat repl : List Char) (l : List Char) : List Char :=
  replaceListAux pat repl l.length l

/-! ## The `colored` crate: styled terminal strings

`src/display.rs` styles text through the external `colored` crate.  A
`ColoredString` records the text together with optional truecolor
foreground/background colors and the bold flag (the only style attribute
this program uses).  Rendering a `ColoredString` to the terminal produces
the ANSI escape encoding used by the crate, assuming colorization is
enabled (the crate's process-wide colorization flag is an immutable
configuration constant, taken here to be on). -/

structure ColoredString where
  input : String
  fgcolor : Option (Nat × Nat × Nat)
  bgcolor : Option (Nat × Nat × Nat)
  isBold : Bool

/-- Truecolor foreground escape parameters: `38;2;r;g;b`. -/
def rgbFg : Nat × Nat × Nat → String
  | (r, g, b) => "38;2;" ++ natRepr r ++ ";" ++ natRepr g ++ ";" ++ natRepr b

/-- Truecolor background escape parameters: `48;2;r;g;b`. -/
def rgbBg : Nat × Nat × Nat → String
  | (r, g, b) => "48;2;" ++ natRepr r ++ ";" ++ natRepr g ++ ";" ++ natRepr b

/-- The parameter segments of the opening escape sequence, in the
crate's order: style, then background, then foreground. -/
def ColoredString.styleParts (c : ColoredString) : List String :=
  (if c.isBold then ["1"] else [])
    ++ (match c.bgcolor with
        | some rgb => [rgbBg rgb]
        | none => [])
    ++ (match c.fgcolor with
        | some rgb => [rgbFg rgb]
        | none => [])

/-- The opening ANSI escape sequence of a styled string. -/
def ColoredString.computeStyle (c : ColoredString) : String :=
  "\x1b[" ++ joinWith ";" c.styleParts ++ "m"

/-- A `ColoredString` with no styling renders as its raw text. -/
def ColoredString.isPlain (c : ColoredString) : Bool :=
  c.fgcolor.isNone && c.bgcolor.isNone && !c.isBold

/-- Terminal rendering of a `ColoredString`: plain text when unstyled,
otherwise the opening escape, the text (with any embedded reset sequence
followed by a re-opening of the style, as the crate does for nested
strings), and the closing reset. -/
def ColoredString.toString (c : ColoredString) : String :=
  if c.isPlain then c.input
  else
    c.computeStyle
      ++ String.mk (replaceList ("\x1b[0m").data
            (("\x1b[0m" ++ c.computeStyle).data) c.input.data)
      ++ "\x1b[0m"

/-- `Colorize::truecolor` on a plain string. -/
def strTruecolor (t : String) (r g b : Nat) : ColoredString :=
  ⟨t, some (r, g, b), none, false⟩

/-- `Colorize::bold` on a plain string. -/
def strBold (t : String) : ColoredString := ⟨t, none, none, true⟩

/-- `Colorize::normal` on a plain string. -/
def strNormal (t : String) : ColoredString := ⟨t, none, none, false⟩

/-- `Colorize::bold` on an already-colored string. -/
def ColoredString.bold (c : ColoredString) : ColoredString :=
  { c with isBold := true }

/-! ## `src/display.rs` -/

/-- `display::indent`: prefix four spaces to every line of the text. -/
def indent (text : String) : String :=
  joinWith "\n" ((rustLines text).map (fun l => "    " ++ l))

/-- `display::green`. -/
def green (text : String) : ColoredString := strTruecolor text 0 175 135

/-- `display::red`. -/
def red (text : String) : ColoredString := strTruecolor text 255 47 109

/-- `display::muted`. -/
def muted (text : String) : ColoredString := strTruecolor text 68 68 68

/-- `display::on_red`. -/
def on_red (text : String) : ColoredString :=
  ⟨text, some (28, 28, 28), some (255, 47, 109), false⟩

/-- `display::on_green`. -/
def on_green (text : String) : ColoredString :=
  ⟨text, some (28, 28, 28), some (0, 175, 135), false⟩

/-! ## Data model (`src/testing.rs`) -/

/-- The result of a single test case. -/
inductive TestResult where
  | Failed
  | Passed
  | Skipped
deriving DecidableEq

/-- One fragment of a failure explanation. -/
inductive FailureDetail where
  | Message : String → FailureDetail
  | StackTrace : String → FailureDetail
deriving DecidableEq

/-- An ordered sequence of failure-explanation fragments. -/
structure FailureInfo where
  details : List FailureDetail
deriving DecidableEq

mutual

/-- A child node of a suite or case, dispatched by element tag. -/
inductive TestDetail where
  | TestCase : TestCase → TestDetail
  | TestSuite : TestSuite → TestDetail
  | Failure : FailureInfo → TestDetail
  | Output : String → TestDetail
  | Properties : TestDetail
  | Reason : FailureInfo → TestDetail

/-- A single test case: name, result, and child details. -/
inductive TestCase where
  | mk : (name : String) → (result : TestResult) →
      (details : List TestDetail) → TestCase

/-- A test suite: kind, name, the four document-supplied counters
(failed, passed, skipped, total), and child details. -/
inductive TestSuite where
  | mk : (kind : String) → (name : String) → (failed : Nat) →
      (passed : Nat) → (skipped : Nat) → (total : Nat) →
      (details : List TestDetail) → TestSuite

end

/-- The root report: an ordered sequence of suites. -/
structure TestSummary where
  test_suites : List TestSuite

/-! ## Renderer (`Display` implementations in `src/testing.rs`) -/

/-- `Display for FailureDetail`: a message in the negative color, a stack
trace in the secondary muted color `(157, 174, 179)`. -/
def FailureDetail.render : FailureDetail → String
  | .Message msg => (red msg).toString
  | .StackTrace msg => (strTruecolor msg 157 174 179).toString

/-- `Display for FailureInfo`: the fragments joined by newlines. -/
def FailureInfo.render (f : FailureInfo) : String :=
  joinWith "\n" (f.details.map FailureDetail.render)

/-- `Display for TestResult`: the single-glyph result marker. -/
def TestResult.render : TestResult → String
  | .Failed => (red "𐄂").toString
  | .Passed => (green "✓").toString
  | .Skipped => (muted "-").toString

/-- The marker line of a case: result glyph, space, then the name —
bold when the case failed, unstyled otherwise. -/
def renderCaseMainLine (name : String) (result : TestResult) : String :=
  result.render ++ " "
    ++ (if result = .Failed then (strBold name).toString
        else (strNormal name).toString)

/-- The styled suite name of the header line: negative-inverted when
`failed > 0`, else positive-inverted when `passed = total`, else
muted bold. -/
def suiteHeaderName (failed passed total : Nat) (name : String) :
    ColoredString :=
  if failed > 0 then on_red (" " ++ name ++ " ")
  else if passed = total then on_green (" " ++ name ++ " ")
  else (muted name).bold

/-- The suite header line: styled name then the three counters —
passed (green), failed (red), skipped (muted). -/
def renderSuiteHeader (name : String) (failed passed skipped total : Nat) :
    String :=
  (suiteHeaderName failed passed total name).toString ++ " "
    ++ (green (natRepr passed)).toString ++ " "
    ++ (red (natRepr failed)).toString ++ " "
    ++ (muted (natRepr skipped)).toString

mutual

/-- `Display for TestDetail`. -/
def renderDetail : TestDetail → String
  | .TestSuite s => renderSuite s
  | .TestCase c => renderCase c
  | .Failure f => f.render
  | .Output o => o
  | .Properties => "[Properties]"
  | .Reason r => r.render

/-- The body lines of a case (`Display for TestCase`, detail loop):
`Properties` details are skipped, `Output` details are skipped when the
case passed, and any detail rendering to the empty string is skipped;
every emitted detail is indented. -/
def caseDetailLines (result : TestResult) : List TestDetail → List String
  | [] => []
  | d :: rest =>
    match d with
    | .Properties => caseDetailLines result rest
    | .Output _ =>
      if result = .Passed then caseDetailLines result rest
      else
        if renderDetail d = "" then caseDetailLines result rest
        else indent (renderDetail d) :: caseDetailLines result rest
    | _ =>
      if renderDetail d = "" then caseDetailLines result rest
      else indent (renderDetail d) :: caseDetailLines result rest

/-- `Display for TestCase`: an empty line first when the case failed,
then the marker line, then the body lines, joined by newlines. -/
def renderCase : TestCase → String
  | .mk name result details =>
    joinWith "\n"
      ((if result = .Failed then [""] else [])
        ++ renderCaseMainLine name result :: caseDetailLines result details)

/-- The body lines of a suite (`Display for TestSuite`, detail loop):
`Properties` details and details rendering to the empty string are
skipped; every emitted detail is indented. -/
def suiteDetailLines : List TestDetail → List String
  | [] => []
  | d :: rest =>
    match d with
    | .Properties => suiteDetailLines rest
    | _ =>
      if renderDetail d = "" then suiteDetailLines rest
      else indent (renderDetail d) :: suiteDetailLines rest

/-- `Display for TestSuite`: the header line then the body lines, joined
by newlines. -/
def renderSuite : TestSuite → String
  | .mk _ name failed passed skipped total details =>
    joinWith "\n"
      (renderSuiteHeader name failed passed skipped total
        :: suiteDetailLines details)

end

/-- `Display for TestSummary` (`renderReport`): the suites, each fully
rendered, joined by newlines. -/
def renderSummary (s : TestSummary) : String :=
  joinWith "\n" (s.test_suites.map renderSuite)

/-! ## Parser

The repository performs XML deserialization through the external
`quick_xml`/serde crates (`load_test_results` in `src/testing.rs` only
declares the serde attributes and calls `de::from_reader`), so the
deserialization itself is not code under `src/`.  The parser below is
therefore modelled from the specification: the document schema of spec
section 6, the parser contract of section 4.1 and the error taxonomy of
section 7. -/

/-- Modelled from the spec: the structured input document (section 6) —
an ordered tree of elements carrying attributes and child nodes, with
text content at the leaves.  This stands in for the XML document that
`quick_xml` deserializes. -/
inductive XmlNode where
  | element : (tag : String) → (attrs : List (String × String)) →
      (children : List XmlNode) → XmlNode
  | text : String → XmlNode

/-- Modelled from the spec: the parse-error taxonomy of section 7
(`IoError` for an unreadable input source, `MalformedReport` for a
schema violation, carrying diagnostic context). -/
inductive ParseError where
  | IoError : String → ParseError
  | MalformedReport : String → ParseError

/-- First attribute value bound to `key`, if any. -/
def lookupAttr (attrs : List (String × String)) (key : String) :
    Option String :=
  match attrs with
  | [] => none
  | (k, v) :: rest => if k = key then some v else lookupAttr rest key

/-- Modelled from the spec: a required attribute — missing attributes
are a schema violation (section 4.1). -/
def getAttr (attrs : List (String × String)) (key : String) :
    Except String String :=
  match lookupAttr attrs key with
  | some v => .ok v
  | none => .error ("missing attribute: " ++ key)

/-- Modelled from the spec: the `result` attribute must be exactly one
of `Passed`/`Failed`/`Skipped` (case-sensitive); anything else is a
schema violation, never a default result (sections 6–8). -/
def parseResult (s : String) : Except String TestResult :=
  if s = "Passed" then .ok .Passed
  else if s = "Failed" then .ok .Failed
  else if s = "Skipped" then .ok .Skipped
  else .error ("invalid result: " ++ s)

/-- Parse a decimal digit string to a number, rejecting anything that is
not a non-empty all-digit string. -/
def parseNatStr (s : String) : Option Nat :=
  if s.data ≠ [] ∧ s.data.all (fun c => c.isDigit) then
    some (s.data.foldl (fun acc c => acc * 10 + (c.toNat - 48)) 0)
  else none

/-- Modelled from the spec: a required integer attribute (the four
suite counters, section 6). -/
def getNatAttr (attrs : List (String × String)) (key : String) :
    Except String Nat :=
  match getAttr attrs key with
  | .error e => .error e
  | .ok s =>
    match parseNatStr s with
    | some n => .ok n
    | none => .error ("invalid integer attribute: " ++ key)

/-- Modelled from the spec: the text content of an element holding only
text (`output`, `message`, `stack-trace`); an absent text child is the
empty string, and any non-text child is a schema violation. -/
def textContent (children : List XmlNode) : Except String String :=
  match children with
  | [] => .ok ""
  | [.text s] => .ok s
  | _ => .error "expected text content"

/-- Modelled from the spec: a `failure`/`reason` element wraps a
sequence of `message` and `stack-trace` children (section 6); any other
child is a schema violation. -/
def parseFailureDetail (n : XmlNode) : Except String FailureDetail :=
  match n with
  | .text _ => .error "unexpected text node in failure info"
  | .element tag _ children =>
    if tag = "message" then
      match textContent children with
      | .ok s => .ok (.Message s)
      | .error e => .error e
    else if tag = "stack-trace" then
      match textContent children with
      | .ok s => .ok (.StackTrace s)
      | .error e => .error e
    else .error ("unrecognized failure element: " ++ tag)

/-- Parse each failure-info child in document order. -/
def parseFailureDetails (l : List XmlNode) :
    Except String (List FailureDetail) :=
  match l with
  | [] => .ok []
  | n :: rest =>
    match parseFailureDetail n with
    | .error e => .error e
    | .ok d =>
      match parseFailureDetails rest with
      | .error e => .error e
      | .ok ds => .ok (d :: ds)

/-- Modelled from the spec: parse a `failure`/`reason` element body. -/
def parseFailureInfo (children : List XmlNode) :
    Except String FailureInfo :=
  match parseFailureDetails children with
  | .error e => .error e
  | .ok ds => .ok ⟨ds⟩

mutual

/-- Modelled from the spec: dispatch a suite/case child element to the
`TestDetail` variant named by its tag, preserving document order;
unrecognized tags are a hard parse failure (section 4.1).  The
`properties` element is empty (section 6). -/
def parseDetail (n : XmlNode) : Except String TestDetail :=
  match n with
  | .text _ => .error "unexpected text node"
  | .element tag attrs children =>
    if tag = "test-suite" then
      match parseSuite attrs children with
      | .error e => .error e
      | .ok s => .ok (.TestSuite s)
    else if tag = "test-case" then
      match parseCase attrs children with
      | .error e => .error e
      | .ok c => .ok (.TestCase c)
    else if tag = "failure" then
      match parseFailureInfo children with
      | .error e => .error e
      | .ok f => .ok (.Failure f)
    else if tag = "output" then
      match textContent children with
      | .error e => .error e
      | .ok s => .ok (.Output s)
    else if tag = "properties" then
      (if children.isEmpty then .ok .Properties
       else .error "properties element must be empty")
    else if tag = "reason" then
      match parseFailureInfo children with
      | .error e => .error e
      | .ok f => .ok (.Reason f)
    else .error ("unrecognized element: " ++ tag)

/-- Parse each child detail in document order; the first failure aborts
the whole parse. -/
def parseDetails (l : List XmlNode) : Except String (List TestDetail) :=
  match l with
  | [] => .ok []
  | n :: rest =>
    match parseDetail n with
    | .error e => .error e
    | .ok d =>
      match parseDetails rest with
      | .error e => .error e
      | .ok ds => .ok (d :: ds)

/-- Modelled from the spec: a `test-case` element — required `name` and
`result` attributes, then its children as details (section 6). -/
def parseCase (attrs : List (String × String)) (children : List XmlNode) :
    Except String TestCase :=
  match getAttr attrs "name" with
  | .error e => .error e
  | .ok name =>
    match getAttr attrs "result" with
    | .error e => .error e
    | .ok rs =>
      match parseResult rs with
      | .error e => .error e
      | .ok result =>
        match parseDetails children with
        | .error e => .error e
        | .ok details => .ok (.mk name result details)

/-- Modelled from the spec: a `test-suite` element — required `type`,
`name` and the four integer counter attributes, then its children as
details (section 6). -/
def parseSuite (attrs : List (String × String)) (children : List XmlNode) :
    Except String TestSuite :=
  match getAttr attrs "type" with
  | .error e => .error e
  | .ok kind =>
    match getAttr attrs "name" with
    | .error e => .error e
    | .ok name =>
      match getNatAttr attrs "failed" with
      | .error e => .error e
      | .ok failed =>
        match getNatAttr attrs "passed" with
        | .error e => .error e
        | .ok passed =>
          match getNatAttr attrs "skipped" with
          | .error e => .error e
          | .ok skipped =>
            match getNatAttr attrs "total" with
            | .error e => .error e
            | .ok total =>
              match parseDetails children with
              | .error e => .error e
              | .ok details =>
                .ok (.mk kind name failed passed skipped total details)

end

/-- Modelled from the spec: the root element wraps a sequence of suite
elements and nothing else (section 6). -/
def parseTopLevel (l : List XmlNode) : Except String (List TestSuite) :=
  match l with
  | [] => .ok []
  | n :: rest =>
    match n with
    | .text _ => .error "unexpected text at top level"
    | .element tag attrs children =>
      if tag = "test-suite" then
        match parseSuite attrs children with
        | .error e => .error e
        | .ok s =>
          match parseTopLevel rest with
          | .error e => .error e
          | .ok r => .ok (s :: r)
      else .error ("expected test-suite element, got: " ++ tag)

/-- Modelled from the spec: the whole-document parse — a single
`test-run` root containing zero or more suites (section 6). -/
def parseSummary (root : XmlNode) : Except String TestSummary :=
  match root with
  | .text _ => .error "expected test-run root element"
  | .element tag _ children =>
    if tag = "test-run" then
      match parseTopLevel children with
      | .error e => .error e
      | .ok suites => .ok ⟨suites⟩
    else .error ("expected test-run root, got: " ++ tag)

/-- Modelled from the spec: `parseReport` (section 6.8) — either a
complete well-formed report, or a `MalformedReport` error; there is no
partial-success mode (section 7). -/
def parseReport (root : XmlNode) : Except ParseError TestSummary :=
  match parseSummary root with
  | .ok r => .ok r
  | .error m => .error (.MalformedReport m)

/-! ## Document encoding

For the round-trip property, a `TestSummary` tree is encoded into the
document schema of spec section 6. -/

/-- Encode a result as its attribute value. -/
def encodeResult : TestResult → String
  | .Failed => "Failed"
  | .Passed => "Passed"
  | .Skipped => "Skipped"

/-- Encode a failure fragment as its element. -/
def encodeFailureDetail : FailureDetail → XmlNode
  | .Message m => .element "message" [] [.text m]
  | .StackTrace m => .element "stack-trace" [] [.text m]

mutual

/-- Encode a detail as its element, dispatching by variant. -/
def encodeDetail : TestDetail → XmlNode
  | .TestSuite s => encodeSuite s
  | .TestCase c => encodeCase c
  | .Failure f => .element "failure" [] (f.details.map encodeFailureDetail)
  | .Output o => .element "output" [] [.text o]
  | .Properties => .element "properties" [] []
  | .Reason r => .element "reason" [] (r.details.map encodeFailureDetail)

/-- Encode a case with its two attributes and its children in order. -/
def encodeCase : TestCase → XmlNode
  | .mk name result details =>
    .element "test-case"
      [("name", name), ("result", encodeResult result)]
      (encodeDetailList details)

/-- Encode a suite with its six attributes and its children in order. -/
def encodeSuite : TestSuite → XmlNode
  | .mk kind name failed passed skipped total details =>
    .element "test-suite"
      [("type", kind), ("name", name), ("failed", natRepr failed),
       ("passed", natRepr passed), ("skipped", natRepr skipped),
       ("total", natRepr total)]
      (encodeDetailList details)

/-- Encode a detail sequence in document order. -/
def encodeDetailList : List TestDetail → List XmlNode
  | [] => []
  | d :: rest => encodeDetail d :: encodeDetailList rest

end

/-- Encode a whole report under the `test-run` root. -/
def encodeSummary (s : TestSummary) : XmlNode :=
  .element "test-run" [] (s.test_suites.map encodeSuite)

/-! ## Helper lemmas: strings and character lists -/

theorem mem_of_getLast?_eq {α : Type} {l : List α} {a : α}
    (h : l.getLast? = some a) : a ∈ l := by
  rcases List.mem_getLast?_eq_getLast (Option.mem_def.mpr h) with ⟨hne, rfl⟩
  exact List.getLast_mem hne

theorem string_mk_data (s : String) : String.mk s.data = s := by
  cases s
  rfl

theorem str_empty_append (s : String) : "" ++ s = s := by
  cases s
  rfl

theorem str_append_empty (s : String) : s ++ "" = s := by
  cases s with
  | mk l =>
    show String.mk (l ++ []) = String.mk l
    rw [List.append_nil]

theorem str_append_eq_empty {a b : String} :
    a ++ b = "" ↔ a = "" ∧ b = "" := by
  cases a with
  | mk la =>
    cases b with
    | mk lb =>
      constructor
      · intro h
        have hd : la ++ lb = ([] : List Char) := congrArg String.data h
        rcases List.append_eq_nil.mp hd with ⟨h1, h2⟩
        exact ⟨by rw [h1], by rw [h2]⟩
      · rintro ⟨h1, h2⟩
        rw [h1, h2]
        rfl

theorem splitCharList_ne_nil (c : Char) (l : List Char) :
    splitCharList c l ≠ [] := by
  induction l with
  | nil => simp [splitCharList]
  | cons x xs ih =>
    rw [splitCharList]
    split
    · simp
    · cases h : splitCharList c xs with
      | nil => simp
      | cons a as => simp

theorem splitCharList_of_not_mem {c : Char} {l : List Char} (h : c ∉ l) :
    splitCharList c l = [l] := by
  induction l with
  | nil => rfl
  | cons x xs ih =>
    rw [splitCharList]
    have hx : ¬x = c := by
      intro hxc
      exact h (hxc ▸ List.mem_cons_self x xs)
    rw [if_neg hx, ih (fun hm => h (List.mem_cons_of_mem x hm))]

theorem splitCharList_append_cons {c : Char} {xs : List Char}
    (ys : List Char) (h : c ∉ xs) :
    splitCharList c (xs ++ c :: ys) = xs :: splitCharList c ys := by
  induction xs with
  | nil =>
    rw [List.nil_append, splitCharList, if_pos rfl]
  | cons x tail ih =>
    have hx : ¬x = c := by
      intro hxc
      exact h (hxc ▸ List.mem_cons_self x tail)
    rw [List.cons_append, splitCharList, if_neg hx,
      ih (fun hm => h (List.mem_cons_of_mem x hm))]

theorem splitNl_of_not_mem {s : String} (h : '\n' ∉ s.data) :
    splitNl s = [s] := by
  rw [splitNl, splitCharList_of_not_mem h, List.map_cons, List.map_nil,
    string_mk_data]

theorem splitNl_append {a : String} (b : String) (h : '\n' ∉ a.data) :
    splitNl (a ++ "\n" ++ b) = a :: splitNl b := by
  have hd : (a ++ "\n" ++ b).data = a.data ++ '\n' :: b.data := by
    have hnl : ("\n" : String).data = ['\n'] := by decide
    rw [String.data_append, String.data_append, hnl, List.append_assoc]
    rfl
  rw [splitNl, hd, splitCharList_append_cons _ h, List.map_cons,
    string_mk_data]
  rfl

theorem stripTrailingCr_of_not_mem {s : String} (h : '\r' ∉ s.data) :
    stripTrailingCr s = s := by
  rw [stripTrailingCr]
  split
  · rename_i hlast
    exact absurd (mem_of_getLast?_eq hlast) h
  · rfl

theorem rustLines_single {s : String} (hne : s ≠ "") (hnl : '\n' ∉ s.data)
    (hcr : '\r' ∉ s.data) : rustLines s = [s] := by
  rw [rustLines]
  simp only [splitNl_of_not_mem hnl, List.getLast?_singleton,
    Option.some.injEq]
  rw [if_neg hne, List.map_cons, List.map_nil,
    stripTrailingCr_of_not_mem hcr]

theorem rustLines_blank_cons {t : String} (hne : t ≠ "")
    (hnl : '\n' ∉ t.data) (hcr : '\r' ∉ t.data) :
    rustLines ("\n" ++ t) = ["", t] := by
  have h1 : ("\n" : String) ++ t = "" ++ "\n" ++ t := by
    rw [str_empty_append]
  rw [rustLines, h1, splitNl_append t (by decide),
    splitNl_of_not_mem hnl]
  simp only [List.getLast?_cons_cons, List.getLast?_singleton,
    Option.some.injEq]
  rw [if_neg hne, List.map_cons, List.map_cons, List.map_nil,
    stripTrailingCr_of_not_mem (by decide), stripTrailingCr_of_not_mem hcr]

theorem indent_single {s : String} (hne : s ≠ "") (hnl : '\n' ∉ s.data)
    (hcr : '\r' ∉ s.data) : indent s = "    " ++ s := by
  rw [indent, rustLines_single hne hnl hcr, List.map_cons, List.map_nil,
    joinWith]

theorem indent_blank_cons {t : String} (hne : t ≠ "")
    (hnl : '\n' ∉ t.data) (hcr : '\r' ∉ t.data) :
    indent ("\n" ++ t) = "    " ++ "\n" ++ ("    " ++ t) := by
  rw [indent, rustLines_blank_cons hne hnl hcr, List.map_cons,
    List.map_cons, List.map_nil, joinWith, joinWith, str_append_empty]

/-! ## Helper lemmas: decimal rendering -/

theorem digitChar_isDigit {d : Nat} (h : d < 10) :
    (digitChar d).isDigit = true := by
  interval_cases d <;> decide

theorem digitChar_toNat {d : Nat} (h : d < 10) :
    (digitChar d).toNat = 48 + d := by
  interval_cases d <;> decide

theorem natReprAux_all_digit :
    ∀ fuel n, ∀ c ∈ natReprAux fuel n, c.isDigit = true := by
  intro fuel
  induction fuel with
  | zero =>
    intro n c hc
    match n with
    | 0 => exact absurd hc (List.not_mem_nil c)
    | m + 1 => exact absurd hc (List.not_mem_nil c)
  | succ f ih =>
    intro n c hc
    match n with
    | 0 => exact absurd hc (List.not_mem_nil c)
    | m + 1 =>
      rw [natReprAux] at hc
      rcases List.mem_append.mp hc with h1 | h2
      · exact ih ((m + 1) / 10) c h1
      · rw [List.mem_singleton] at h2
        subst h2
        exact digitChar_isDigit (Nat.mod_lt _ (by omega))

theorem natReprAux_ne_nil {fuel n : Nat} (h : 0 < n) (hf : 0 < fuel) :
    natReprAux fuel n ≠ [] := by
  match fuel, n with
  | f + 1, m + 1 =>
    rw [natReprAux]
    simp

theorem natReprAux_foldl :
    ∀ fuel n acc, n ≤ fuel →
      List.foldl (fun acc c => acc * 10 + (c.toNat - 48)) acc
        (natReprAux fuel n)
      = acc * 10 ^ (natReprAux fuel n).length + n := by
  intro fuel
  induction fuel with
  | zero =>
    intro n acc hn
    have : n = 0 := Nat.le_zero.mp hn
    subst this
    simp [natReprAux]
  | succ f ih =>
    intro n acc hn
    match n with
    | 0 => simp [natReprAux]
    | m + 1 =>
      have hrec : (m + 1) / 10 ≤ f := by omega
      rw [natReprAux, List.foldl_append, List.foldl_cons, List.foldl_nil,
        ih ((m + 1) / 10) acc hrec,
        digitChar_toNat (Nat.mod_lt _ (by omega)),
        List.length_append, List.length_cons, List.length_nil]
      rw [Nat.add_sub_cancel_left, pow_succ]
      have hdm : (m + 1) / 10 * 10 + (m + 1) % 10 = m + 1 := by omega
      calc (acc * 10 ^ (natReprAux f ((m + 1) / 10)).length + (m + 1) / 10)
              * 10 + (m + 1) % 10
          = acc * (10 ^ (natReprAux f ((m + 1) / 10)).length * 10)
              + ((m + 1) / 10 * 10 + (m + 1) % 10) := by ring
        _ = acc * (10 ^ (natReprAux f ((m + 1) / 10)).length * 10)
              + (m + 1) := by rw [hdm]

theorem natRepr_all_digit (n : Nat) :
    ∀ c ∈ (natRepr n).data, c.isDigit = true := by
  rw [natRepr]
  split
  · intro c hc
    have : c = '0' := by
      have h0 : ("0" : String).data = ['0'] := by decide
      rw [h0, List.mem_singleton] at hc
      exact hc
    rw [this]
    decide
  · exact natReprAux_all_digit n n

theorem parseNatStr_natRepr (n : Nat) : parseNatStr (natRepr n) = some n := by
  by_cases h0 : n = 0
  · subst h0
    decide
  · rw [natRepr, if_neg h0, parseNatStr]
    have hne : (String.mk (natReprAux n n)).data ≠ [] :=
      natReprAux_ne_nil (Nat.pos_of_ne_zero h0) (Nat.pos_of_ne_zero h0)
    have hall : (String.mk (natReprAux n n)).data.all (fun c => c.isDigit)
        = true :=
      List.all_eq_true.mpr (fun c hc => natReprAux_all_digit n n c hc)
    rw [if_pos ⟨hne, hall⟩]
    show some (List.foldl _ 0 (natReprAux n n)) = some n
    rw [natReprAux_foldl n n 0 (le_refl n)]
    simp

/-! ## Helper lemmas: characters of styled strings -/

theorem joinWith_chars {sep : String} :
    ∀ l : List String, ∀ x ∈ (joinWith sep l).data,
      x ∈ sep.data ∨ ∃ p ∈ l, x ∈ p.data := by
  intro l
  induction l with
  | nil =>
    intro x hx
    rw [joinWith] at hx
    have hempty : ("" : String).data = [] := rfl
    rw [hempty] at hx
    exact absurd hx (List.not_mem_nil x)
  | cons a rest ih =>
    cases rest with
    | nil =>
      intro x hx
      rw [joinWith] at hx
      exact Or.inr ⟨a, List.mem_cons_self a [], hx⟩
    | cons b rest2 =>
      intro x hx
      rw [joinWith, String.data_append, String.data_append] at hx
      rcases List.mem_append.mp hx with hx1 | hx2
      · rcases List.mem_append.mp hx1 with hxa | hxsep
        · exact Or.inr ⟨a, List.mem_cons_self a _, hxa⟩
        · exact Or.inl hxsep
      · rcases ih x hx2 with hsep | ⟨p, hp, hxp⟩
        · exact Or.inl hsep
        · exact Or.inr ⟨p, List.mem_cons_of_mem a hp, hxp⟩

theorem rgbFg_chars (t : Nat × Nat × Nat) :
    ∀ x ∈ (rgbFg t).data, x.isDigit = true ∨ x = ';' := by
  rcases t with ⟨r, g, b⟩
  intro x hx
  rw [rgbFg] at hx
  simp only [String.data_append] at hx
  have hpre : ∀ y ∈ ("38;2;" : String).data, y.isDigit = true ∨ y = ';' := by
    decide
  have hsemi : ∀ y ∈ (";" : String).data, y.isDigit = true ∨ y = ';' := by
    decide
  rcases List.mem_append.mp hx with h | h
  · rcases List.mem_append.mp h with h | h
    · rcases List.mem_append.mp h with h | h
      · rcases List.mem_append.mp h with h | h
        · rcases List.mem_append.mp h with h | h
          · exact hpre x h
          · exact Or.inl (natRepr_all_digit r x h)
        · exact hsemi x h
      · exact Or.inl (natRepr_all_digit g x h)
    · exact hsemi x h
  · exact Or.inl (natRepr_all_digit b x h)

theorem rgbBg_chars (t : Nat × Nat × Nat) :
    ∀ x ∈ (rgbBg t).data, x.isDigit = true ∨ x = ';' := by
  rcases t with ⟨r, g, b⟩
  intro x hx
  rw [rgbBg] at hx
  simp only [String.data_append] at hx
  have hpre : ∀ y ∈ ("48;2;" : String).data, y.isDigit = true ∨ y = ';' := by
    decide
  have hsemi : ∀ y ∈ (";" : String).data, y.isDigit = true ∨ y = ';' := by
    decide
  rcases List.mem_append.mp hx with h | h
  · rcases List.mem_append.mp h with h | h
    · rcases List.mem_append.mp h with h | h
      · rcases List.mem_append.mp h with h | h
        · rcases List.mem_append.mp h with h | h
          · exact hpre x h
          · exact Or.inl (natRepr_all_digit r x h)
        · exact hsemi x h
      · exact Or.inl (natRepr_all_digit g x h)
    · exact hsemi x h
  · exact Or.inl (natRepr_all_digit b x h)

theorem styleParts_chars (c : ColoredString) :
    ∀ p ∈ c.styleParts, ∀ x ∈ p.data, x.isDigit = true ∨ x = ';' := by
  intro p hp
  rw [ColoredString.styleParts] at hp
  rcases List.mem_append.mp hp with h | h
  · rcases List.mem_append.mp h with h | h
    · intro x hx
      split at h
      · rw [List.mem_singleton] at h
        subst h
        left
        have : x = '1' := by
          have h1 : ("1" : String).data = ['1'] := by decide
          rw [h1, List.mem_singleton] at hx
          exact hx
        rw [this]
        decide
      · exact absurd h (List.not_mem_nil p)
    · rcases hb : c.bgcolor with _ | rgb
      · rw [hb] at h
        exact absurd h (List.not_mem_nil p)
      · rw [hb] at h
        rw [List.mem_singleton] at h
        subst h
        exact rgbBg_chars rgb
  · rcases hf : c.fgcolor with _ | rgb
    · rw [hf] at h
      exact absurd h (List.not_mem_nil p)
    · rw [hf] at h
      rw [List.mem_singleton] at h
      subst h
      exact rgbFg_chars rgb

theorem computeStyle_chars (c : ColoredString) :
    ∀ x ∈ c.computeStyle.data,
      x.isDigit = true ∨ x ∈ ['\x1b', '[', ';', 'm'] := by
  intro x hx
  rw [ColoredString.computeStyle, String.data_append,
    String.data_append] at hx
  rcases List.mem_append.mp hx with h | h
  · rcases List.mem_append.mp h with h | h
    · right
      have : ∀ y ∈ ("\x1b[" : String).data, y ∈ ['\x1b', '[', ';', 'm'] := by
        decide
      exact this x h
    · rcases joinWith_chars c.styleParts x h with hsep | ⟨p, hp, hxp⟩
      · right
        have : ∀ y ∈ (";" : String).data, y ∈ ['\x1b', '[', ';', 'm'] := by
          decide
        exact this x hsep
      · rcases styleParts_chars c p hp x hxp with hd | hsemi
        · exact Or.inl hd
        · right
          rw [hsemi]
          decide
  · right
    have : ∀ y ∈ ("m" : String).data, y ∈ ['\x1b', '[', ';', 'm'] := by
      decide
    exact this x h

theorem replaceListAux_mem (pat repl : List Char) :
    ∀ fuel l, ∀ y ∈ replaceListAux pat repl fuel l, y ∈ repl ∨ y ∈ l := by
  intro fuel
  induction fuel with
  | zero =>
    intro l y hy
    cases l with
    | nil => exact absurd hy (List.not_mem_nil y)
    | cons x xs => exact Or.inr hy
  | succ f ih =>
    intro l y hy
    cases l with
    | nil => exact absurd hy (List.not_mem_nil y)
    | cons x xs =>
      rw [replaceListAux] at hy
      split at hy
      · rcases List.mem_append.mp hy with h1 | h2
        · exact Or.inl h1
        · rcases ih _ y h2 with h | h
          · exact Or.inl h
          · exact Or.inr (List.drop_subset pat.length (x :: xs) h)
      · rcases List.mem_cons.mp hy with h | h
        · exact Or.inr (h ▸ List.mem_cons_self x xs)
        · rcases ih xs y h with hr | hr
          · exact Or.inl hr
          · exact Or.inr (List.mem_cons_of_mem x hr)

theorem replaceList_mem (pat repl : List Char) :
    ∀ l, ∀ y ∈ replaceList pat repl l, y ∈ repl ∨ y ∈ l :=
  fun l => replaceListAux_mem pat repl l.length l

theorem toString_chars (cs : ColoredString) :
    ∀ x ∈ cs.toString.data,
      x ∈ cs.input.data ∨ x.isDigit = true ∨ x ∈ ['\x1b', '[', ';', 'm'] := by
  intro x hx
  rw [ColoredString.toString] at hx
  split at hx
  · exact Or.inl hx
  · rw [String.data_append, String.data_append] at hx
    have hreset : ∀ y ∈ ("\x1b[0m" : String).data,
        y.isDigit = true ∨ y ∈ ['\x1b', '[', ';', 'm'] := by
      decide
    rcases List.mem_append.mp hx with h | h
    · rcases List.mem_append.mp h with h | h
      · exact Or.inr (computeStyle_chars cs x h)
      · rcases replaceList_mem _ _ _ x h with h | h
        · rw [String.data_append] at h
          rcases List.mem_append.mp h with h | h
          · exact Or.inr (hreset x h)
          · exact Or.inr (computeStyle_chars cs x h)
        · exact Or.inl h
    · exact Or.inr (hreset x h)

theorem not_mem_toString {cs : ColoredString} {x : Char}
    (hin : x ∉ cs.input.data) (hd : x.isDigit = false)
    (hesc : x ∉ ['\x1b', '[', ';', 'm']) : x ∉ cs.toString.data := by
  intro hx
  rcases toString_chars cs x hx with h | h | h
  · exact hin h
  · rw [hd] at h
    exact Bool.false_ne_true h
  · exact hesc h

theorem nl_not_mem_toString {cs : ColoredString}
    (hin : '\n' ∉ cs.input.data) : '\n' ∉ cs.toString.data :=
  not_mem_toString hin (by decide) (by decide)

theorem cr_not_mem_toString {cs : ColoredString}
    (hin : '\r' ∉ cs.input.data) : '\r' ∉ cs.toString.data :=
  not_mem_toString hin (by decide) (by decide)

theorem esc_mem_toString {cs : ColoredString}
    (h : cs.isPlain = false) : '\x1b' ∈ cs.toString.data := by
  rw [ColoredString.toString, if_neg (by rw [h]; exact Bool.false_ne_true)]
  rw [String.data_append, String.data_append]
  apply List.mem_append_left
  apply List.mem_append_left
  rw [ColoredString.computeStyle, String.data_append, String.data_append]
  apply List.mem_append_left
  apply List.mem_append_left
  decide

/-! ## Helper definitions and lemmas for the claims -/

/-- Is this detail the `Properties` marker? -/
def TestDetail.isProps : TestDetail → Bool
  | .Properties => true
  | _ => false

/-- Is this detail a captured-output detail? -/
def TestDetail.isOutput : TestDetail → Bool
  | .Output _ => true
  | _ => false

/-- A line with no visible content (only spaces, possibly none). -/
def isBlankLine (l : String) : Bool := l.data.all (fun c => c == ' ')

/-- Does the line contain the fixed `Properties` placeholder label? -/
def containsPlaceholder (l : String) : Bool :=
  l.data.tails.any (fun t => ("[Properties]" : String).data.isPrefixOf t)

/-- Number of output lines carrying the `Properties` placeholder label. -/
def placeholderLineCount (s : String) : Nat :=
  ((splitNl s).filter (fun l => containsPlaceholder l)).length

theorem caseDetailLines_passed_drop_output (details : List TestDetail) :
    caseDetailLines .Passed details
      = caseDetailLines .Passed (details.filter (fun d => !d.isOutput)) := by
  induction details with
  | nil => rfl
  | cons d rest ih =>
    cases d <;>
      simp [caseDetailLines, TestDetail.isOutput, List.filter, ih]

theorem caseDetailLines_drop_props (result : TestResult)
    (details : List TestDetail) :
    caseDetailLines result details
      = caseDetailLines result (details.filter (fun d => !d.isProps)) := by
  induction details with
  | nil => rfl
  | cons d rest ih =>
    cases d <;>
      simp [caseDetailLines, TestDetail.isProps, List.filter, ih]

theorem suiteDetailLines_drop_props (details : List TestDetail) :
    suiteDetailLines details
      = suiteDetailLines (details.filter (fun d => !d.isProps)) := by
  induction details with
  | nil => rfl
  | cons d rest ih =>
    cases d <;>
      simp [suiteDetailLines, TestDetail.isProps, List.filter, ih]

/-- A sample report used to instantiate hypotheses in witnesses. -/
def sampleReport : TestSummary :=
  ⟨[.mk "Assembly" "Core" 1 2 0 3
    [.TestCase (.mk "a" .Passed []),
     .TestCase (.mk "b" .Failed
       [.Failure ⟨[.Message "expected 1 got 2",
                   .StackTrace "at Foo.Bar:12"]⟩]),
     .TestCase (.mk "c" .Skipped [])]]⟩

/-! ## The claims -/

/-- **C1** (counterexample): the claim says that a `Case` containing a
`PropertiesMarker` detail renders exactly one placeholder line; on the
code a concrete such case renders zero placeholder lines, because
`TestCase::fmt` skips `Properties` details with `continue` exactly as
`TestSuite::fmt` does. -/
theorem c1_case_placeholder_false :
    ¬ placeholderLineCount
        (renderCase (.mk "t" .Passed [.Properties])) = 1 := by
  decide

/-- **C1** (amended): both suite bodies and case bodies drop a
`PropertiesMarker` detail entirely — no line (and in particular no
placeholder line) is produced for it in either context: rendering is
unchanged when all `Properties` details are removed. -/
theorem c1_properties_marker_dropped :
    (∀ kind name failed passed skipped total details,
      renderSuite (.mk kind name failed passed skipped total details)
        = renderSuite (.mk kind name failed passed skipped total
            (details.filter (fun d => !d.isProps))))
    ∧ (∀ name result details,
      renderCase (.mk name result details)
        = renderCase (.mk name result
            (details.filter (fun d => !d.isProps)))) := by
  constructor
  · intro kind name failed passed skipped total details
    rw [renderSuite, renderSuite, suiteDetailLines_drop_props]
  · intro name result details
    rw [renderCase, renderCase, caseDetailLines_drop_props]

/-- **C3**: the suite header name style is chosen by three mutually
exclusive, exhaustive branches: negative-inverted (`on_red`) whenever
`failed > 0` regardless of the other counters; else positive-inverted
(`on_green`) when `passed = total`; else muted bold. -/
theorem c3_suite_header_style (failed passed total : Nat) (name : String) :
    (0 < failed →
      suiteHeaderName failed passed total name
        = on_red (" " ++ name ++ " "))
    ∧ (failed = 0 → passed = total →
      suiteHeaderName failed passed total name
        = on_green (" " ++ name ++ " "))
    ∧ (failed = 0 → passed ≠ total →
      suiteHeaderName failed passed total name = (muted name).bold)
    ∧ (0 < failed ∨ (failed = 0 ∧ passed = total)
        ∨ (failed = 0 ∧ passed ≠ total))
    ∧ ¬(0 < failed ∧ (failed = 0 ∧ passed = total))
    ∧ ¬(0 < failed ∧ (failed = 0 ∧ passed ≠ total))
    ∧ ¬((failed = 0 ∧ passed = total) ∧ (failed = 0 ∧ passed ≠ total)) := by
  refine ⟨?_, ?_, ?_, ?_, ?_, ?_, ?_⟩
  · intro h
    rw [suiteHeaderName, if_pos h]
  · intro h0 hpt
    rw [suiteHeaderName, if_neg (by omega), if_pos hpt]
  · intro h0 hpt
    rw [suiteHeaderName, if_neg (by omega), if_neg hpt]
  · by_cases h : 0 < failed
    · exact Or.inl h
    · by_cases hpt : passed = total
      · exact Or.inr (Or.inl ⟨by omega, hpt⟩)
      · exact Or.inr (Or.inr ⟨by omega, hpt⟩)
  · rintro ⟨h1, h2, _⟩
    omega
  · rintro ⟨h1, h2, _⟩
    omega
  · rintro ⟨⟨_, h1⟩, _, h2⟩
    exact h2 h1

/-- **C3** (witness): the three branches at concrete counters. -/
theorem c3_suite_header_style_witness :
    suiteHeaderName 1 2 3 "Core" = on_red (" " ++ "Core" ++ " ")
    ∧ suiteHeaderName 0 3 3 "Core" = on_green (" " ++ "Core" ++ " ")
    ∧ suiteHeaderName 0 2 3 "Core" = (muted "Core").bold :=
  ⟨(c3_suite_header_style 1 2 3 "Core").1 (by decide),
   (c3_suite_header_style 0 3 3 "Core").2.1 rfl rfl,
   (c3_suite_header_style 0 2 3 "Core").2.2.1 rfl (by decide)⟩

/-- **C5**: a `Passed` case suppresses every `Output` detail (rendering
is unchanged when they are removed), while a `Failed` or `Skipped` case
renders a non-empty `Output` detail indented, subject to the same
empty-string suppression as any other detail. -/
theorem c5_output_suppression :
    (∀ name details,
      renderCase (.mk name .Passed details)
        = renderCase (.mk name .Passed
            (details.filter (fun d => !d.isOutput))))
    ∧ (∀ o rest,
      caseDetailLines .Failed (.Output o :: rest)
        = if o = "" then caseDetailLines .Failed rest
          else indent o :: caseDetailLines .Failed rest)
    ∧ (∀ o rest,
      caseDetailLines .Skipped (.Output o :: rest)
        = if o = "" then caseDetailLines .Skipped rest
          else indent o :: caseDetailLines .Skipped rest) := by
  refine ⟨?_, ?_, ?_⟩
  · intro name details
    rw [renderCase, renderCase, caseDetailLines_passed_drop_output]
  · intro o rest
    simp [caseDetailLines, renderDetail]
  · intro o rest
    simp [caseDetailLines, renderDetail]

/-- **C7**: rendering is total over the data model — `renderSummary` is
a total function accepted by structural recursion on the report tree, so
for every well-formed report it terminates and produces an output, with
no error path. -/
theorem c7_render_total (r : TestSummary) :
    ∃ s : String, renderSummary r = s :=
  ⟨renderSummary r, rfl⟩

/-- **C8**: rendering is deterministic — the output depends only on the
`Report` value (the renderer is a pure function with no hidden state),
so rendering the same report twice yields byte-identical output. -/
theorem c8_render_deterministic (r₁ r₂ : TestSummary) (h : r₁ = r₂) :
    renderSummary r₁ = renderSummary r₂ :=
  congrArg renderSummary h

/-- **C8** (witness): determinism at a concrete report. -/
theorem c8_render_deterministic_witness :
    renderSummary sampleReport = renderSummary sampleReport :=
  c8_render_deterministic sampleReport sampleReport rfl

/-- **C9**: at the top level, a report with zero suites renders as the
empty string, and the suites are joined by exactly one newline — no
separator before the first suite and no trailing newline. -/
theorem c9_top_level_join :
    renderSummary ⟨[]⟩ = ""
    ∧ (∀ a, renderSummary ⟨[a]⟩ = renderSuite a)
    ∧ (∀ a b rest,
      renderSummary ⟨a :: b :: rest⟩
        = renderSuite a ++ "\n" ++ renderSummary ⟨b :: rest⟩) := by
  refine ⟨rfl, fun a => rfl, fun a b rest => ?_⟩
  rw [renderSummary, renderSummary, List.map_cons, List.map_cons, joinWith]

/-- **C10**: a `Reason` detail renders to exactly the same string as a
`Failure` detail holding the same payload: both render the
`FailureDetail` sequence joined by newlines, with `Message` in the
negative color and `StackTrace` in the secondary muted color
`(157, 174, 179)`. -/
theorem c10_reason_failure_render (fi : FailureInfo) :
    renderDetail (.Reason fi) = renderDetail (.Failure fi)
    ∧ renderDetail (.Failure fi)
        = joinWith "\n" (fi.details.map FailureDetail.render)
    ∧ (∀ m, FailureDetail.render (.Message m) = (red m).toString)
    ∧ (∀ m, FailureDetail.render (.StackTrace m)
        = (strTruecolor m 157 174 179).toString) :=
  ⟨rfl, rfl, fun _ => rfl, fun _ => rfl⟩

/-! ## Helper lemmas for the blank-line claim -/

theorem str_data_ext {a b : String} (h : a.data = b.data) : a = b := by
  cases a
  cases b
  cases h
  rfl

theorem not_mem_append_str {x : Char} {a b : String} (ha : x ∉ a.data)
    (hb : x ∉ b.data) : x ∉ (a ++ b).data := by
  intro hx
  rw [String.data_append] at hx
  rcases List.mem_append.mp hx with h | h
  · exact ha h
  · exact hb h

theorem mem_append_right_str {x : Char} (a : String) {b : String}
    (hb : x ∈ b.data) : x ∈ (a ++ b).data := by
  rw [String.data_append]
  exact List.mem_append_right a.data hb

theorem strNormal_toString (t : String) : (strNormal t).toString = t := rfl

theorem renderCaseMainLine_ne_empty (name : String) (res : TestResult) :
    renderCaseMainLine name res ≠ "" := by
  rw [renderCaseMainLine]
  intro h
  rcases str_append_eq_empty.mp h with ⟨h1, _⟩
  rcases str_append_eq_empty.mp h1 with ⟨_, h2⟩
  exact absurd h2 (by decide)

theorem char_not_mem_result_render {x : Char} (res : TestResult)
    (hd : x.isDigit = false) (hesc : x ∉ ['\x1b', '[', ';', 'm'])
    (hglyph : x ∉ ['✓', '𐄂', '-']) : x ∉ res.render.data := by
  intro hx
  cases res with
  | Failed =>
    rw [TestResult.render] at hx
    rcases toString_chars _ x hx with h | h | h
    · have hdata : (("𐄂" : String)).data = ['𐄂'] := by decide
      rw [show (red "𐄂").input = "𐄂" from rfl, hdata,
        List.mem_singleton] at h
      subst h
      exact hglyph (by decide)
    · rw [hd] at h
      exact Bool.false_ne_true h
    · exact hesc h
  | Passed =>
    rw [TestResult.render] at hx
    rcases toString_chars _ x hx with h | h | h
    · have hdata : (("✓" : String)).data = ['✓'] := by decide
      rw [show (green "✓").input = "✓" from rfl, hdata,
        List.mem_singleton] at h
      subst h
      exact hglyph (by decide)
    · rw [hd] at h
      exact Bool.false_ne_true h
    · exact hesc h
  | Skipped =>
    rw [TestResult.render] at hx
    rcases toString_chars _ x hx with h | h | h
    · have hdata : (("-" : String)).data = ['-'] := by decide
      rw [show (muted "-").input = "-" from rfl, hdata,
        List.mem_singleton] at h
      subst h
      exact hglyph (by decide)
    · rw [hd] at h
      exact Bool.false_ne_true h
    · exact hesc h

theorem char_not_mem_mainLine {x : Char} {name : String} (res : TestResult)
    (hn : x ∉ name.data) (hd : x.isDigit = false)
    (hesc : x ∉ ['\x1b', '[', ';', 'm'])
    (hglyph : x ∉ ['✓', '𐄂', '-']) (hsp : x ≠ ' ') :
    x ∉ (renderCaseMainLine name res).data := by
  intro hx
  rw [renderCaseMainLine, String.data_append, String.data_append] at hx
  rcases List.mem_append.mp hx with h | h
  · rcases List.mem_append.mp h with h | h
    · exact char_not_mem_result_render res hd hesc hglyph h
    · have hdata : ((" " : String)).data = [' '] := by decide
      rw [hdata, List.mem_singleton] at h
      exact hsp h
  · split at h
    · exact not_mem_toString hn hd hesc h
    · rw [strNormal_toString] at h
      exact hn h

theorem esc_mem_mainLine (name : String) (res : TestResult) :
    '\x1b' ∈ (renderCaseMainLine name res).data := by
  rw [renderCaseMainLine, String.data_append, String.data_append]
  apply List.mem_append_left
  apply List.mem_append_left
  cases res with
  | Failed => exact esc_mem_toString rfl
  | Passed => exact esc_mem_toString rfl
  | Skipped => exact esc_mem_toString rfl

theorem suiteHeaderName_not_plain (f p t : Nat) (sn : String) :
    (suiteHeaderName f p t sn).isPlain = false := by
  rw [suiteHeaderName]
  split
  · rfl
  · split
    · rfl
    · rfl

theorem esc_mem_header (sn : String) (f p sk t : Nat) :
    '\x1b' ∈ (renderSuiteHeader sn f p sk t).data := by
  rw [renderSuiteHeader]
  simp only [String.data_append]
  apply List.mem_append_left
  apply List.mem_append_left
  apply List.mem_append_left
  apply List.mem_append_left
  apply List.mem_append_left
  apply List.mem_append_left
  exact esc_mem_toString (suiteHeaderName_not_plain f p t sn)

theorem char_not_mem_header {x : Char} {sn : String} (f p sk t : Nat)
    (hn : x ∉ sn.data) (hd : x.isDigit = false)
    (hesc : x ∉ ['\x1b', '[', ';', 'm']) (hsp : x ≠ ' ') :
    x ∉ (renderSuiteHeader sn f p sk t).data := by
  have hnat : ∀ m : Nat, x ∉ (natRepr m).data := by
    intro m hm
    have := natRepr_all_digit m x hm
    rw [hd] at this
    exact Bool.false_ne_true this
  have hsp2 : x ∉ ((" " : String)).data := by
    intro h
    have hdata : ((" " : String)).data = [' '] := by decide
    rw [hdata, List.mem_singleton] at h
    exact hsp h
  have hpad : x ∉ (" " ++ sn ++ " ").data := by
    intro h
    rw [String.data_append, String.data_append] at h
    rcases List.mem_append.mp h with h | h
    · rcases List.mem_append.mp h with h | h
      · exact hsp2 h
      · exact hn h
    · exact hsp2 h
  have hname : x ∉ (suiteHeaderName f p t sn).toString.data := by
    rw [suiteHeaderName]
    split
    · exact not_mem_toString hpad hd hesc
    · split
      · exact not_mem_toString hpad hd hesc
      · exact not_mem_toString hn hd hesc
  intro hx
  rw [renderSuiteHeader] at hx
  simp only [String.data_append] at hx
  rcases List.mem_append.mp hx with h | h
  · rcases List.mem_append.mp h with h | h
    · rcases List.mem_append.mp h with h | h
      · rcases List.mem_append.mp h with h | h
        · rcases List.mem_append.mp h with h | h
          · rcases List.mem_append.mp h with h | h
            · exact hname h
            · exact hsp2 h
          · exact not_mem_toString (hnat p) hd hesc h
        · exact hsp2 h
      · exact not_mem_toString (hnat f) hd hesc h
    · exact hsp2 h
  · exact not_mem_toString (hnat sk) hd hesc h

theorem isBlankLine_false_of_esc {l : String} (h : '\x1b' ∈ l.data) :
    isBlankLine l = false := by
  rw [isBlankLine]
  rcases hall : l.data.all (fun c => c == ' ') with _ | _
  · rfl
  · have := List.all_eq_true.mp hall '\x1b' h
    exact absurd this (by decide)

/-- **C4**: for a suite whose details are three cases with results
`[Passed, Failed, Skipped]` in that order (and no case details), the
rendered output contains exactly one blank line — the indented empty
line — placed immediately before the Failed case's marker line, and no
blank line before the Passed or Skipped case lines (names are assumed
free of newline/carriage-return control characters, as element
attributes are). -/
theorem c4_blank_line_before_failure
    (kind sn pn fn skn : String) (f p sk t : Nat)
    (hsn : '\n' ∉ sn.data)
    (hpn : '\n' ∉ pn.data) (hpc : '\r' ∉ pn.data)
    (hfn : '\n' ∉ fn.data) (hfc : '\r' ∉ fn.data)
    (hkn : '\n' ∉ skn.data) (hkc : '\r' ∉ skn.data) :
    splitNl (renderSuite (.mk kind sn f p sk t
        [.TestCase (.mk pn .Passed []),
         .TestCase (.mk fn .Failed []),
         .TestCase (.mk skn .Skipped [])]))
      = [renderSuiteHeader sn f p sk t,
         "    " ++ renderCaseMainLine pn .Passed,
         "    ",
         "    " ++ renderCaseMainLine fn .Failed,
         "    " ++ renderCaseMainLine skn .Skipped]
    ∧ (splitNl (renderSuite (.mk kind sn f p sk t
        [.TestCase (.mk pn .Passed []),
         .TestCase (.mk fn .Failed []),
         .TestCase (.mk skn .Skipped [])]))).filter
          (fun l => isBlankLine l)
      = ["    "] := by
  have hPne := renderCaseMainLine_ne_empty pn .Passed
  have hFne := renderCaseMainLine_ne_empty fn .Failed
  have hSne := renderCaseMainLine_ne_empty skn .Skipped
  have hPnl : '\n' ∉ (renderCaseMainLine pn .Passed).data :=
    char_not_mem_mainLine _ hpn (by decide) (by decide) (by decide)
      (by decide)
  have hPcr : '\r' ∉ (renderCaseMainLine pn .Passed).data :=
    char_not_mem_mainLine _ hpc (by decide) (by decide) (by decide)
      (by decide)
  have hFnl : '\n' ∉ (renderCaseMainLine fn .Failed).data :=
    char_not_mem_mainLine _ hfn (by decide) (by decide) (by decide)
      (by decide)
  have hFcr : '\r' ∉ (renderCaseMainLine fn .Failed).data :=
    char_not_mem_mainLine _ hfc (by decide) (by decide) (by decide)
      (by decide)
  have hSnl : '\n' ∉ (renderCaseMainLine skn .Skipped).data :=
    char_not_mem_mainLine _ hkn (by decide) (by decide) (by decide)
      (by decide)
  have hScr : '\r' ∉ (renderCaseMainLine skn .Skipped).data :=
    char_not_mem_mainLine _ hkc (by decide) (by decide) (by decide)
      (by decide)
  have hc1 : renderCase (.mk pn .Passed [])
      = renderCaseMainLine pn .Passed := by
    simp [renderCase, caseDetailLines, joinWith]
  have hc2 : renderCase (.mk fn .Failed [])
      = "\n" ++ renderCaseMainLine fn .Failed := by
    simp [renderCase, caseDetailLines, joinWith, str_empty_append]
  have hc3 : renderCase (.mk skn .Skipped [])
      = renderCaseMainLine skn .Skipped := by
    simp [renderCase, caseDetailLines, joinWith]
  have hd1 : renderDetail (.TestCase (.mk pn .Passed []))
      = renderCaseMainLine pn .Passed := by
    rw [renderDetail]
    exact hc1
  have hd2 : renderDetail (.TestCase (.mk fn .Failed []))
      = "\n" ++ renderCaseMainLine fn .Failed := by
    rw [renderDetail]
    exact hc2
  have hd3 : renderDetail (.TestCase (.mk skn .Skipped []))
      = renderCaseMainLine skn .Skipped := by
    rw [renderDetail]
    exact hc3
  have hne2 : ¬("\n" ++ renderCaseMainLine fn .Failed = "") := by
    intro h
    rcases str_append_eq_empty.mp h with ⟨h1, _⟩
    exact absurd h1 (by decide)
  have hlines : suiteDetailLines
      [.TestCase (.mk pn .Passed []),
       .TestCase (.mk fn .Failed []),
       .TestCase (.mk skn .Skipped [])]
      = ["    " ++ renderCaseMainLine pn .Passed,
         "    " ++ "\n" ++ ("    " ++ renderCaseMainLine fn .Failed),
         "    " ++ renderCaseMainLine skn .Skipped] := by
    simp only [suiteDetailLines]
    rw [hd1, hd2, hd3, if_neg hPne, if_neg hne2, if_neg hSne,
      indent_single hPne hPnl hPcr, indent_blank_cons hFne hFnl hFcr,
      indent_single hSne hSnl hScr]
  have hsuite : renderSuite (.mk kind sn f p sk t
      [.TestCase (.mk pn .Passed []),
       .TestCase (.mk fn .Failed []),
       .TestCase (.mk skn .Skipped [])])
      = renderSuiteHeader sn f p sk t ++ "\n"
        ++ (("    " ++ renderCaseMainLine pn .Passed) ++ "\n"
          ++ (("    " ++ "\n" ++ ("    " ++ renderCaseMainLine fn .Failed))
              ++ "\n"
            ++ ("    " ++ renderCaseMainLine skn .Skipped))) := by
    rw [renderSuite, hlines]
    simp only [joinWith]
  have hregroup :
      ("    " ++ "\n" ++ ("    " ++ renderCaseMainLine fn .Failed)) ++ "\n"
          ++ ("    " ++ renderCaseMainLine skn .Skipped)
      = "    " ++ "\n"
          ++ (("    " ++ renderCaseMainLine fn .Failed) ++ "\n"
            ++ ("    " ++ renderCaseMainLine skn .Skipped)) := by
    apply str_data_ext
    simp only [String.data_append, List.append_assoc]
  have hnlH : '\n' ∉ (renderSuiteHeader sn f p sk t).data :=
    char_not_mem_header f p sk t hsn (by decide) (by decide) (by decide)
  have hnl4 : '\n' ∉ ("    " : String).data := by decide
  have hnlP4 : '\n' ∉ ("    " ++ renderCaseMainLine pn .Passed).data :=
    not_mem_append_str hnl4 hPnl
  have hnlF4 : '\n' ∉ ("    " ++ renderCaseMainLine fn .Failed).data :=
    not_mem_append_str hnl4 hFnl
  have hnlS4 : '\n' ∉ ("    " ++ renderCaseMainLine skn .Skipped).data :=
    not_mem_append_str hnl4 hSnl
  have hmain : splitNl (renderSuite (.mk kind sn f p sk t
      [.TestCase (.mk pn .Passed []),
       .TestCase (.mk fn .Failed []),
       .TestCase (.mk skn .Skipped [])]))
      = [renderSuiteHeader sn f p sk t,
         "    " ++ renderCaseMainLine pn .Passed,
         "    ",
         "    " ++ renderCaseMainLine fn .Failed,
         "    " ++ renderCaseMainLine skn .Skipped] := by
    rw [hsuite, splitNl_append _ hnlH, splitNl_append _ hnlP4, hregroup,
      splitNl_append _ hnl4, splitNl_append _ hnlF4,
      splitNl_of_not_mem hnlS4]
  refine ⟨hmain, ?_⟩
  rw [hmain]
  have hbH : isBlankLine (renderSuiteHeader sn f p sk t) = false :=
    isBlankLine_false_of_esc (esc_mem_header sn f p sk t)
  have hbP : isBlankLine ("    " ++ renderCaseMainLine pn .Passed)
      = false :=
    isBlankLine_false_of_esc
      (mem_append_right_str _ (esc_mem_mainLine pn .Passed))
  have hbF : isBlankLine ("    " ++ renderCaseMainLine fn .Failed)
      = false :=
    isBlankLine_false_of_esc
      (mem_append_right_str _ (esc_mem_mainLine fn .Failed))
  have hbS : isBlankLine ("    " ++ renderCaseMainLine skn .Skipped)
      = false :=
    isBlankLine_false_of_esc
      (mem_append_right_str _ (esc_mem_mainLine skn .Skipped))
  have hb4 : isBlankLine "    " = true := by decide
  simp [List.filter, hbH, hbP, hbF, hbS, hb4]

/-- **C4** (witness): the blank-line placement at concrete names. -/
theorem c4_blank_line_before_failure_witness :
    splitNl (renderSuite (.mk "Assembly" "Core" 1 2 0 3
        [.TestCase (.mk "a" .Passed []),
         .TestCase (.mk "b" .Failed []),
         .TestCase (.mk "c" .Skipped [])]))
      = [renderSuiteHeader "Core" 1 2 0 3,
         "    " ++ renderCaseMainLine "a" .Passed,
         "    ",
         "    " ++ renderCaseMainLine "b" .Failed,
         "    " ++ renderCaseMainLine "c" .Skipped]
    ∧ (splitNl (renderSuite (.mk "Assembly" "Core" 1 2 0 3
        [.TestCase (.mk "a" .Passed []),
         .TestCase (.mk "b" .Failed []),
         .TestCase (.mk "c" .Skipped [])]))).filter
          (fun l => isBlankLine l)
      = ["    "] :=
  c4_blank_line_before_failure "Assembly" "Core" "a" "b" "c" 1 2 0 3
    (by decide) (by decide) (by decide) (by decide) (by decide)
    (by decide) (by decide)

/-! ## Helper lemmas for the malformed-result claim -/

/-- The document contains, at any depth, a `test-case` element whose
`result` attribute carries a value outside `Passed`/`Failed`/`Skipped`. -/
inductive HasInvalidCase : XmlNode → Prop where
  | here (attrs : List (String × String)) (children : List XmlNode)
      (v : String) (hv : lookupAttr attrs "result" = some v)
      (hbad : v ≠ "Passed" ∧ v ≠ "Failed" ∧ v ≠ "Skipped") :
      HasInvalidCase (.element "test-case" attrs children)
  | child (tag : String) (attrs : List (String × String))
      (children : List XmlNode) (n : XmlNode) (hmem : n ∈ children)
      (h : HasInvalidCase n) :
      HasInvalidCase (.element tag attrs children)

theorem hasInvalidCase_element {n : XmlNode} (h : HasInvalidCase n) :
    ∃ tag attrs children, n = .element tag attrs children := by
  cases h with
  | here attrs children v hv hbad => exact ⟨_, _, _, rfl⟩
  | child tag attrs children m hmem hm => exact ⟨_, _, _, rfl⟩

theorem textContent_error_of_mem {children : List XmlNode}
    {tag : String} {attrs : List (String × String)} {sub : List XmlNode}
    (hmem : XmlNode.element tag attrs sub ∈ children) :
    ∃ m, textContent children = .error m := by
  cases children with
  | nil => exact absurd hmem (List.not_mem_nil _)
  | cons x rest =>
    cases rest with
    | nil =>
      rw [List.mem_singleton] at hmem
      subst hmem
      exact ⟨_, rfl⟩
    | cons y rest2 => cases x <;> exact ⟨_, rfl⟩

theorem parseFailureDetail_error_of_invalid {n : XmlNode}
    (h : HasInvalidCase n) : ∃ m, parseFailureDetail n = .error m := by
  cases h with
  | here attrs children v hv hbad => exact ⟨_, rfl⟩
  | child tag attrs children nc hmem hc =>
    by_cases h1 : tag = "message"
    · subst h1
      rcases hasInvalidCase_element hc with ⟨t2, a2, c2, rfl⟩
      rcases textContent_error_of_mem hmem with ⟨msg, herr⟩
      exact ⟨msg, by rw [parseFailureDetail, if_pos rfl, herr]⟩
    · by_cases h2 : tag = "stack-trace"
      · subst h2
        rcases hasInvalidCase_element hc with ⟨t2, a2, c2, rfl⟩
        rcases textContent_error_of_mem hmem with ⟨msg, herr⟩
        exact ⟨msg, by
          rw [parseFailureDetail, if_neg (by decide), if_pos rfl, herr]⟩
      · exact ⟨_, by rw [parseFailureDetail, if_neg h1, if_neg h2]⟩

theorem parseFailureDetails_error_of_mem {l : List XmlNode} {n : XmlNode}
    (hmem : n ∈ l) (hn : ∃ m, parseFailureDetail n = .error m) :
    ∃ m, parseFailureDetails l = .error m := by
  induction l with
  | nil => exact absurd hmem (List.not_mem_nil n)
  | cons x rest ih =>
    rcases List.mem_cons.mp hmem with rfl | hmem2
    · rcases hn with ⟨m, hm⟩
      exact ⟨m, by rw [parseFailureDetails, hm]⟩
    · cases hx : parseFailureDetail x with
      | error e => exact ⟨e, by rw [parseFailureDetails, hx]⟩
      | ok d =>
        rcases ih hmem2 with ⟨m, hm⟩
        exact ⟨m, by rw [parseFailureDetails, hx, hm]⟩

theorem parseFailureInfo_error {children : List XmlNode}
    (h : ∃ m, parseFailureDetails children = .error m) :
    ∃ m, parseFailureInfo children = .error m := by
  rcases h with ⟨m, hm⟩
  exact ⟨m, by rw [parseFailureInfo, hm]⟩

theorem parseDetails_error_of_mem {l : List XmlNode} {n : XmlNode}
    (hmem : n ∈ l) (hn : ∃ m, parseDetail n = .error m) :
    ∃ m, parseDetails l = .error m := by
  induction l with
  | nil => exact absurd hmem (List.not_mem_nil n)
  | cons x rest ih =>
    rcases List.mem_cons.mp hmem with rfl | hmem2
    · rcases hn with ⟨m, hm⟩
      exact ⟨m, by rw [parseDetails, hm]⟩
    · cases hx : parseDetail x with
      | error e => exact ⟨e, by rw [parseDetails, hx]⟩
      | ok d =>
        rcases ih hmem2 with ⟨m, hm⟩
        exact ⟨m, by rw [parseDetails, hx, hm]⟩

theorem parseCase_error_of_details {attrs : List (String × String)}
    {children : List XmlNode}
    (h : ∃ m, parseDetails children = .error m) :
    ∃ m, parseCase attrs children = .error m := by
  rcases h with ⟨m, hm⟩
  cases h1 : getAttr attrs "name" with
  | error e => exact ⟨e, by rw [parseCase, h1]⟩
  | ok name =>
    cases h2 : getAttr attrs "result" with
    | error e => exact ⟨e, by rw [parseCase, h1, h2]⟩
    | ok rs =>
      cases h3 : parseResult rs with
      | error e => exact ⟨e, by simp only [parseCase, h1, h2, h3]⟩
      | ok r => exact ⟨m, by simp only [parseCase, h1, h2, h3, hm]⟩

theorem parseSuite_error_of_details {attrs : List (String × String)}
    {children : List XmlNode}
    (h : ∃ m, parseDetails children = .error m) :
    ∃ m, parseSuite attrs children = .error m := by
  rcases h with ⟨m, hm⟩
  cases h1 : getAttr attrs "type" with
  | error e => exact ⟨e, by rw [parseSuite, h1]⟩
  | ok kind =>
    cases h2 : getAttr attrs "name" with
    | error e => exact ⟨e, by rw [parseSuite, h1, h2]⟩
    | ok name =>
      cases h3 : getNatAttr attrs "failed" with
      | error e => exact ⟨e, by simp only [parseSuite, h1, h2, h3]⟩
      | ok failed =>
        cases h4 : getNatAttr attrs "passed" with
        | error e => exact ⟨e, by simp only [parseSuite, h1, h2, h3, h4]⟩
        | ok passed =>
          cases h5 : getNatAttr attrs "skipped" with
          | error e =>
            exact ⟨e, by simp only [parseSuite, h1, h2, h3, h4, h5]⟩
          | ok skipped =>
            cases h6 : getNatAttr attrs "total" with
            | error e =>
              exact ⟨e, by simp only [parseSuite, h1, h2, h3, h4, h5, h6]⟩
            | ok total =>
              exact ⟨m, by
                simp only [parseSuite, h1, h2, h3, h4, h5, h6, hm]⟩

theorem parseCase_error_of_result {attrs : List (String × String)}
    {children : List XmlNode} {v : String}
    (hv : lookupAttr attrs "result" = some v)
    (hbad : v ≠ "Passed" ∧ v ≠ "Failed" ∧ v ≠ "Skipped") :
    ∃ m, parseCase attrs children = .error m := by
  cases h1 : getAttr attrs "name" with
  | error e => exact ⟨e, by rw [parseCase, h1]⟩
  | ok name =>
    have h2 : getAttr attrs "result" = .ok v := by rw [getAttr, hv]
    have h3 : parseResult v = .error ("invalid result: " ++ v) := by
      rw [parseResult, if_neg hbad.1, if_neg hbad.2.1, if_neg hbad.2.2]
    exact ⟨"invalid result: " ++ v, by simp only [parseCase, h1, h2, h3]⟩

theorem parseDetail_error_of_invalid {n : XmlNode}
    (h : HasInvalidCase n) : ∃ m, parseDetail n = .error m := by
  induction h with
  | here attrs children v hv hbad =>
    rcases parseCase_error_of_result hv hbad with ⟨m, hm⟩
    exact ⟨m, by
      rw [parseDetail, if_neg (by decide), if_pos rfl, hm]⟩
  | child tag attrs children nc hmem hc ih =>
    by_cases h1 : tag = "test-suite"
    · subst h1
      rcases parseSuite_error_of_details
          (parseDetails_error_of_mem hmem ih) with ⟨m, hm⟩
      exact ⟨m, by rw [parseDetail, if_pos rfl, hm]⟩
    · by_cases h2 : tag = "test-case"
      · subst h2
        rcases parseCase_error_of_details
            (parseDetails_error_of_mem hmem ih) with ⟨m, hm⟩
        exact ⟨m, by rw [parseDetail, if_neg (by decide), if_pos rfl, hm]⟩
      · by_cases h3 : tag = "failure"
        · subst h3
          rcases parseFailureInfo_error
              (parseFailureDetails_error_of_mem hmem
                (parseFailureDetail_error_of_invalid hc)) with ⟨m, hm⟩
          exact ⟨m, by
            rw [parseDetail, if_neg (by decide), if_neg (by decide),
              if_pos rfl, hm]⟩
        · by_cases h4 : tag = "output"
          · subst h4
            rcases hasInvalidCase_element hc with ⟨t2, a2, c2, rfl⟩
            rcases textContent_error_of_mem hmem with ⟨m, hm⟩
            exact ⟨m, by
              rw [parseDetail, if_neg (by decide), if_neg (by decide),
                if_neg (by decide), if_pos rfl, hm]⟩
          · by_cases h5 : tag = "properties"
            · subst h5
              cases children with
              | nil => exact absurd hmem (List.not_mem_nil _)
              | cons x rest =>
                exact ⟨"properties element must be empty", by
                  rw [parseDetail, if_neg (by decide), if_neg (by decide),
                    if_neg (by decide), if_neg (by decide), if_pos rfl,
                    if_neg (by simp)]⟩
            · by_cases h6 : tag = "reason"
              · subst h6
                rcases parseFailureInfo_error
                    (parseFailureDetails_error_of_mem hmem
                      (parseFailureDetail_error_of_invalid hc))
                  with ⟨m, hm⟩
                exact ⟨m, by
                  rw [parseDetail, if_neg (by decide), if_neg (by decide),
                    if_neg (by decide), if_neg (by decide),
                    if_neg (by decide), if_pos rfl, hm]⟩
              · exact ⟨"unrecognized element: " ++ tag, by
                  rw [parseDetail, if_neg h1, if_neg h2, if_neg h3,
                    if_neg h4, if_neg h5, if_neg h6]⟩

theorem parseTopLevel_error_of_invalid {l : List XmlNode} {n : XmlNode}
    (hmem : n ∈ l) (hn : HasInvalidCase n) :
    ∃ m, parseTopLevel l = .error m := by
  induction l with
  | nil => exact absurd hmem (List.not_mem_nil n)
  | cons x rest ih =>
    rcases List.mem_cons.mp hmem with rfl | hmem2
    · rcases hasInvalidCase_element hn with ⟨t, a, c, rfl⟩
      by_cases ht : t = "test-suite"
      · subst ht
        rcases parseDetail_error_of_invalid hn with ⟨m, hm⟩
        cases hs : parseSuite a c with
        | error e => exact ⟨e, by rw [parseTopLevel, if_pos rfl, hs]⟩
        | ok s =>
          exfalso
          rw [parseDetail, if_pos rfl, hs] at hm
          exact Except.noConfusion hm
      · exact ⟨"expected test-suite element, got: " ++ t, by
          rw [parseTopLevel, if_neg ht]⟩
    · cases x with
      | text s => exact ⟨"unexpected text at top level", by
          rw [parseTopLevel]⟩
      | element t a c =>
        by_cases ht : t = "test-suite"
        · subst ht
          cases hs : parseSuite a c with
          | error e => exact ⟨e, by rw [parseTopLevel, if_pos rfl, hs]⟩
          | ok s =>
            rcases ih hmem2 with ⟨m, hm⟩
            exact ⟨m, by rw [parseTopLevel, if_pos rfl, hs, hm]⟩
        · exact ⟨"expected test-suite element, got: " ++ t, by
            rw [parseTopLevel, if_neg ht]⟩

/-- **C2**: for every input document that contains (at any depth) a
case element whose `result` attribute carries an invalid value such as
`"Weird"`, the parse entry point fails with a `MalformedReport` error —
it never produces a default/fallback result, and never a partial tree
(the whole parse returns an error, not a report).  The parser is
modelled from the spec (sections 4.1, 6 and 7), since deserialization
is performed by external crates. -/
theorem c2_malformed_result {doc : XmlNode} (h : HasInvalidCase doc) :
    ∃ m, parseReport doc = .error (.MalformedReport m) := by
  cases h with
  | here attrs children v hv hbad =>
    exact ⟨"expected test-run root, got: " ++ "test-case", by
      rw [parseReport, parseSummary, if_neg (by decide)]⟩
  | child tag attrs children nc hmem hc =>
    by_cases ht : tag = "test-run"
    · subst ht
      rcases parseTopLevel_error_of_invalid hmem hc with ⟨m, hm⟩
      exact ⟨m, by rw [parseReport, parseSummary, if_pos rfl, hm]⟩
    · exact ⟨"expected test-run root, got: " ++ tag, by
        rw [parseReport, parseSummary, if_neg ht]⟩

/-- **C2** (witness): a concrete document whose case has
`result="Weird"` fails with `MalformedReport`. -/
theorem c2_malformed_result_witness :
    ∃ m, parseReport (.element "test-run" []
        [.element "test-suite"
          [("type", "Assembly"), ("name", "Core"), ("failed", "0"),
           ("passed", "1"), ("skipped", "0"), ("total", "1")]
          [.element "test-case" [("name", "t"), ("result", "Weird")] []]])
      = .error (.MalformedReport m) :=
  c2_malformed_result
    (HasInvalidCase.child _ _ _ _ (List.mem_cons_self _ _)
      (HasInvalidCase.child _ _ _ _ (List.mem_cons_self _ _)
        (HasInvalidCase.here _ _ "Weird" (by decide)
          ⟨by decide, by decide, by decide⟩)))

/-! ## Helper lemmas for the round-trip claim -/

theorem parseFailureDetails_encode :
    ∀ l : List FailureDetail,
      parseFailureDetails (l.map encodeFailureDetail) = .ok l
  | [] => rfl
  | fd :: rest => by
    rw [List.map_cons, parseFailureDetails,
      show parseFailureDetail (encodeFailureDetail fd) = .ok fd from
        (by cases fd <;> rfl),
      parseFailureDetails_encode rest]

theorem parseFailureInfo_encode (f : FailureInfo) :
    parseFailureInfo (f.details.map encodeFailureDetail) = .ok f := by
  rw [parseFailureInfo, parseFailureDetails_encode]

mutual

theorem encodeSuite_parse : ∀ s : TestSuite,
    ∃ a c, encodeSuite s = .element "test-suite" a c
      ∧ parseSuite a c = .ok s
  | .mk kind name f p sk t details => by
    refine ⟨_, _, rfl, ?_⟩
    have hf : getNatAttr [("type", kind), ("name", name),
        ("failed", natRepr f), ("passed", natRepr p),
        ("skipped", natRepr sk), ("total", natRepr t)] "failed"
        = .ok f := by
      simp only [getNatAttr,
        show getAttr [("type", kind), ("name", name),
          ("failed", natRepr f), ("passed", natRepr p),
          ("skipped", natRepr sk), ("total", natRepr t)] "failed"
          = Except.ok (natRepr f) from rfl,
        parseNatStr_natRepr]
    have hp : getNatAttr [("type", kind), ("name", name),
        ("failed", natRepr f), ("passed", natRepr p),
        ("skipped", natRepr sk), ("total", natRepr t)] "passed"
        = .ok p := by
      simp only [getNatAttr,
        show getAttr [("type", kind), ("name", name),
          ("failed", natRepr f), ("passed", natRepr p),
          ("skipped", natRepr sk), ("total", natRepr t)] "passed"
          = Except.ok (natRepr p) from rfl,
        parseNatStr_natRepr]
    have hsk : getNatAttr [("type", kind), ("name", name),
        ("failed", natRepr f), ("passed", natRepr p),
        ("skipped", natRepr sk), ("total", natRepr t)] "skipped"
        = .ok sk := by
      simp only [getNatAttr,
        show getAttr [("type", kind), ("name", name),
          ("failed", natRepr f), ("passed", natRepr p),
          ("skipped", natRepr sk), ("total", natRepr t)] "skipped"
          = Except.ok (natRepr sk) from rfl,
        parseNatStr_natRepr]
    have ht : getNatAttr [("type", kind), ("name", name),
        ("failed", natRepr f), ("passed", natRepr p),
        ("skipped", natRepr sk), ("total", natRepr t)] "total"
        = .ok t := by
      simp only [getNatAttr,
        show getAttr [("type", kind), ("name", name),
          ("failed", natRepr f), ("passed", natRepr p),
          ("skipped", natRepr sk), ("total", natRepr t)] "total"
          = Except.ok (natRepr t) from rfl,
        parseNatStr_natRepr]
    simp only [parseSuite,
      show getAttr [("type", kind), ("name", name),
        ("failed", natRepr f), ("passed", natRepr p),
        ("skipped", natRepr sk), ("total", natRepr t)] "type"
        = Except.ok kind from rfl,
      show getAttr [("type", kind), ("name", name),
        ("failed", natRepr f), ("passed", natRepr p),
        ("skipped", natRepr sk), ("total", natRepr t)] "name"
        = Except.ok name from rfl,
      hf, hp, hsk, ht, parseDetails_encode details]

theorem encodeCase_parse : ∀ c : TestCase,
    ∃ a ch, encodeCase c = .element "test-case" a ch
      ∧ parseCase a ch = .ok c
  | .mk name result details => by
    refine ⟨_, _, rfl, ?_⟩
    simp only [parseCase,
      show getAttr [("name", name), ("result", encodeResult result)]
        "name" = Except.ok name from rfl,
      show getAttr [("name", name), ("result", encodeResult result)]
        "result" = Except.ok (encodeResult result) from rfl,
      show parseResult (encodeResult result) = Except.ok result from
        (by cases result <;> rfl),
      parseDetails_encode details]

theorem parseDetails_encode :
    ∀ l : List TestDetail, parseDetails (encodeDetailList l) = .ok l
  | [] => by rw [encodeDetailList, parseDetails]
  | d :: rest => by
    rw [encodeDetailList, parseDetails, parseDetail_encode d,
      parseDetails_encode rest]

theorem parseDetail_encode :
    ∀ d : TestDetail, parseDetail (encodeDetail d) = .ok d
  | .TestSuite s => by
    rcases encodeSuite_parse s with ⟨a, c, he, hp⟩
    rw [encodeDetail, he, parseDetail, if_pos rfl, hp]
  | .TestCase c => by
    rcases encodeCase_parse c with ⟨a, ch, he, hp⟩
    rw [encodeDetail, he, parseDetail, if_neg (by decide), if_pos rfl, hp]
  | .Failure f => by
    rw [encodeDetail, parseDetail, if_neg (by decide), if_neg (by decide),
      if_pos rfl, parseFailureInfo_encode f]
  | .Output o => by
    rw [encodeDetail, parseDetail, if_neg (by decide), if_neg (by decide),
      if_neg (by decide), if_pos rfl,
      show textContent [XmlNode.text o] = Except.ok o from rfl]
  | .Properties => by
    rw [encodeDetail, parseDetail, if_neg (by decide), if_neg (by decide),
      if_neg (by decide), if_neg (by decide), if_pos rfl,
      if_pos (by decide : ([] : List XmlNode).isEmpty = true)]
  | .Reason r => by
    rw [encodeDetail, parseDetail, if_neg (by decide), if_neg (by decide),
      if_neg (by decide), if_neg (by decide), if_neg (by decide),
      if_pos rfl, parseFailureInfo_encode r]

end

theorem parseTopLevel_encode :
    ∀ suites : List TestSuite,
      parseTopLevel (suites.map encodeSuite) = .ok suites
  | [] => rfl
  | s :: rest => by
    rcases encodeSuite_parse s with ⟨a, c, he, hp⟩
    rw [List.map_cons, he, parseTopLevel, if_pos rfl, hp,
      parseTopLevel_encode rest]

/-- **C6**: for every hand-constructed report tree — any number of
suites, nested sub-suites and cases at any depth, with mixed `Detail`
variants in any sibling order — parsing the document that encodes
exactly that tree yields a report structurally equal to the original:
same nesting, same document order across variant types, same attribute
values.  The parser is modelled from the spec (sections 4.1 and 6),
since deserialization is performed by external crates. -/
theorem c6_roundtrip (r : TestSummary) :
    parseReport (encodeSummary r) = .ok r := by
  rw [encodeSummary, parseReport, parseSummary, if_pos rfl,
    parseTopLevel_encode]
